import Mathlib

/-!
Shallow embedding of the scheduler / current-task core of the rCore-based
teaching kernel (src/os/src/task/mod.rs, src/os/src/task/processor.rs) and of
the easy-fs directory layer (src/easy-fs/src/vfs.rs), together with theorems
settling the frozen claims about it.

Machine integers: `usize` values are represented as `Nat` with wraparound
taken explicitly modulo `2 ^ 64` where the source can overflow; `isize`
values (the `start_time` field with its `-1` sentinel) are `Int`.
-/

/-- Modulus of the 64-bit `usize` arithmetic used by the kernel. -/
def USIZE_MOD : Nat := 2 ^ 64

/-- The Rust cast `x as usize` applied to an `isize` value. -/
def intToUsize (x : Int) : Nat := (x % (USIZE_MOD : Int)).toNat

/-- Wrapping `usize` subtraction `a - b` (release-mode Rust semantics). -/
def usizeSub (a b : Nat) : Nat := (a + USIZE_MOD - b % USIZE_MOD) % USIZE_MOD

/-- List lookup by position, `none` out of range (Rust indexing panics out of
range; every lookup below is performed at an in-range position). -/
def listGet? {α : Type} (l : List α) (i : Nat) : Option α :=
  match l, i with
  | [], _ => none
  | a :: _, 0 => some a
  | _ :: t, n + 1 => listGet? t n

/-- Replace the element at position `i` by its image under `f`; identity out
of range. Models in-place mutation of one slot of a `Vec`. -/
def listModify {α : Type} (l : List α) (i : Nat) (f : α → α) : List α :=
  match l, i with
  | [], _ => []
  | a :: t, 0 => f a :: t
  | a :: t, n + 1 => a :: listModify t n f

/-- The ascending list `[s, s+1, ..., s+k-1]`, used to embed Rust `Range`
iteration. -/
def countFrom (s k : Nat) : List Nat :=
  match k with
  | 0 => []
  | k + 1 => s :: countFrom (s + 1) k

/-- Number of elements of `l` satisfying `p`. -/
def countB {α : Type} (p : α → Bool) (l : List α) : Nat :=
  match l with
  | [] => 0
  | a :: t => (if p a then 1 else 0) + countB p t

theorem listGet?_none {α : Type} (l : List α) (i : Nat) (h : l.length ≤ i) :
    listGet? l i = none := by
  induction l generalizing i with
  | nil => cases i <;> rfl
  | cons a t ih =>
    cases i with
    | zero => simp at h
    | succ n => exact ih n (by simpa using h)

theorem listGet?_isSome {α : Type} (l : List α) (i : Nat) (h : i < l.length) :
    ∃ a, listGet? l i = some a := by
  induction l generalizing i with
  | nil => simp at h
  | cons a t ih =>
    cases i with
    | zero => exact ⟨a, rfl⟩
    | succ n => exact ih n (by simpa using h)

theorem listModify_length {α : Type} (l : List α) (i : Nat) (f : α → α) :
    (listModify l i f).length = l.length := by
  induction l generalizing i with
  | nil => rfl
  | cons a t ih =>
    cases i with
    | zero => rfl
    | succ n => simpa [listModify] using ih n

theorem listGet?_listModify_self {α : Type} (l : List α) (i : Nat) (f : α → α) :
    listGet? (listModify l i f) i = (listGet? l i).map f := by
  induction l generalizing i with
  | nil => cases i <;> rfl
  | cons a t ih =>
    cases i with
    | zero => rfl
    | succ n => simpa [listModify, listGet?] using ih n

theorem listGet?_listModify_other {α : Type} (l : List α) (i j : Nat) (f : α → α)
    (h : j ≠ i) : listGet? (listModify l i f) j = listGet? l j := by
  induction l generalizing i j with
  | nil => cases j <;> rfl
  | cons a t ih =>
    cases i with
    | zero =>
      cases j with
      | zero => exact absurd rfl h
      | succ m => rfl
    | succ n =>
      cases j with
      | zero => rfl
      | succ m => exact ih n m (fun hc => h (by simpa using hc))

theorem countB_listModify {α : Type} (p : α → Bool) (l : List α) (i : Nat)
    (f : α → α) (a : α) (h : listGet? l i = some a) :
    countB p (listModify l i f) + (if p a then 1 else 0) =
      countB p l + (if p (f a) then 1 else 0) := by
  induction l generalizing i with
  | nil => simp [listGet?] at h
  | cons b t ih =>
    cases i with
    | zero =>
      cases h
      simp [listModify, countB]
      omega
    | succ n =>
      have := ih n h
      simp [listModify, countB]
      omega

theorem countB_eq_zero {α : Type} (p : α → Bool) (l : List α) :
    countB p l = 0 ↔ ∀ i a, listGet? l i = some a → p a = false := by
  induction l with
  | nil =>
    constructor
    · intro _ i a h; simp [listGet?] at h
    · intro _; rfl
  | cons b t ih =>
    constructor
    · intro h i a hget
      have hb : p b = false := by
        by_cases hpb : p b
        · simp [countB, hpb] at h
        · simpa using hpb
      cases i with
      | zero => cases hget; exact hb
      | succ n =>
        have ht : countB p t = 0 := by
          simp [countB, hb] at h; exact h
        exact (ih.mp ht) n a hget
    · intro h
      have hb : p b = false := h 0 b rfl
      have ht : countB p t = 0 := ih.mpr (fun i a hg => h (i + 1) a hg)
      simp [countB, hb, ht]

theorem countFrom_length (s k : Nat) : (countFrom s k).length = k := by
  induction k generalizing s with
  | zero => rfl
  | succ n ih => simpa [countFrom] using ih (s + 1)

theorem listGet?_countFrom (s k j : Nat) (h : j < k) :
    listGet? (countFrom s k) j = some (s + j) := by
  induction k generalizing s j with
  | zero => omega
  | succ n ih =>
    cases j with
    | zero => simp [countFrom, listGet?]
    | succ m =>
      have hm := ih (s + 1) m (by omega)
      show listGet? (countFrom (s + 1) n) m = some (s + (m + 1))
      rw [hm, Nat.add_comm m 1, ← Nat.add_assoc]

theorem mem_countFrom (s k x : Nat) : x ∈ countFrom s k ↔ s ≤ x ∧ x < s + k := by
  induction k generalizing s with
  | zero =>
    simp only [countFrom, List.not_mem_nil, false_iff]
    omega
  | succ n ih =>
    simp only [countFrom, List.mem_cons, ih (s + 1)]
    omega

/-- Characterization of `List.find?` as the first match in scan order. -/
theorem find?_some_first {α : Type} (l : List α) (p : α → Bool) (a : α)
    (h : l.find? p = some a) :
    ∃ k, k < l.length ∧ listGet? l k = some a ∧ p a = true ∧
      ∀ k1, k1 < k → ∀ b, listGet? l k1 = some b → p b = false := by
  induction l with
  | nil => simp [List.find?] at h
  | cons x t ih =>
    by_cases hp : p x
    · rw [List.find?_cons_of_pos _ hp] at h
      cases h
      exact ⟨0, by simp, rfl, hp, by omega⟩
    · rw [List.find?_cons_of_neg _ (by simpa using hp)] at h
      obtain ⟨k, hk, hget, hpa, hfirst⟩ := ih h
      refine ⟨k + 1, by simpa using hk, hget, hpa, ?_⟩
      intro k1 hk1 b hb
      cases k1 with
      | zero => cases hb; simpa using hp
      | succ m => exact hfirst m (by omega) b hb

theorem find?_eq_none_iff {α : Type} (l : List α) (p : α → Bool) :
    l.find? p = none ↔ ∀ i a, listGet? l i = some a → p a = false := by
  induction l with
  | nil =>
    constructor
    · intro _ i a h; simp [listGet?] at h
    · intro _; rfl
  | cons x t ih =>
    by_cases hp : p x
    · rw [List.find?_cons_of_pos _ hp]
      constructor
      · intro h; cases h
      · intro h
        have := h 0 x rfl
        rw [hp] at this
        cases this
    · rw [List.find?_cons_of_neg _ (by simpa using hp)]
      constructor
      · intro h i a hget
        cases i with
        | zero => cases hget; simpa using hp
        | succ n => exact (ih.mp h) n a hget
      · intro h
        exact ih.mpr (fun i a hg => h (i + 1) a hg)


/-! ## Data model: task control block and collaborators -/

/-- Task lifecycle status (src/os/src/task/task.rs, re-exported by
src/os/src/task/mod.rs). -/
inductive TaskStatus where
  | UnInit
  | Ready
  | Running
  | Exited
deriving DecidableEq, Repr

/-- Modelled from the spec: the address-space collaborator (`MemorySet`,
src/os/src/mm/memory_set.rs is not under src/). The spec's interface is
`is_mapped(page)` and `insert_mapping(range, permission)`; we track the set of
mapped virtual page numbers (permission bits do not affect the mapped/unmapped
queries the scheduler core performs). -/
structure MemorySet where
  mapped : List Nat
deriving DecidableEq, Repr

/-- `MemorySet::vpn_ismap`: is the virtual page number mapped? -/
def MemorySet.vpn_ismap (ms : MemorySet) (vpn : Nat) : Bool :=
  ms.mapped.contains vpn

/-- `MemorySet::insert_framed_area` restricted to what the scheduler core
observes: every page of `[startVpn, endVpn)` becomes mapped. -/
def MemorySet.insert_framed_area (ms : MemorySet) (startVpn endVpn : Nat) :
    MemorySet :=
  { mapped := ms.mapped ++ (countFrom startVpn (endVpn - startVpn)) }

/-- Modelled from the spec: `PAGE_SIZE` of the SV39 configuration
(src/os/src/config.rs is not under src/); the standard 4 KiB page. -/
def PAGE_SIZE : Nat := 4096

/-- `VirtAddr::aligned` (src/os/src/mm/address.rs, not under src/; modelled
from the spec: `start` is page-aligned). -/
def VirtAddr.aligned (va : Nat) : Bool := va % PAGE_SIZE == 0

/-- `VirtAddr::floor`: page number of the page containing `va`. -/
def VirtAddr.floor (va : Nat) : Nat := va / PAGE_SIZE

/-- `VirtAddr::ceil`: first page number at or above `va`. -/
def VirtAddr.ceil (va : Nat) : Nat := (va + PAGE_SIZE - 1) / PAGE_SIZE

/-- The task control block, with the fields the scheduler core reads and
writes (`task_status`, `start_time` with `-1` sentinel, `stride`, `prior`,
`syscall_times`, `memory_set`; the saved register context is opaque and
carries no observable scheduler state). -/
structure TaskControlBlock where
  task_status : TaskStatus
  start_time : Int
  stride : Nat
  prior : Nat
  syscall_times : List Nat
  memory_set : MemorySet
deriving DecidableEq, Repr

/-- Is the TCB in the `Running` state? -/
def isRunningTCB (t : TaskControlBlock) : Bool :=
  decide (t.task_status = TaskStatus.Running)

/-- Status of the task at position `i`, `UnInit` out of range (indexing is
always in range in the running kernel). -/
def statusAt (tasks : List TaskControlBlock) (i : Nat) : TaskStatus :=
  match listGet? tasks i with
  | some t => t.task_status
  | none => TaskStatus.UnInit

/-- Stride accumulator of the task at position `i`. -/
def strideAt (tasks : List TaskControlBlock) (i : Nat) : Nat :=
  match listGet? tasks i with
  | some t => t.stride
  | none => 0

/-- Priority of the task at position `i`. -/
def priorAt (tasks : List TaskControlBlock) (i : Nat) : Nat :=
  match listGet? tasks i with
  | some t => t.prior
  | none => 0

/-- `start_time` of the task at position `i` (`-1` = unset sentinel). -/
def startTimeAt (tasks : List TaskControlBlock) (i : Nat) : Int :=
  match listGet? tasks i with
  | some t => t.start_time
  | none => 0

/-- Number of `Running` TCBs in the table. -/
def runningCount (tasks : List TaskControlBlock) : Nat :=
  countB isRunningTCB tasks

/-! ## TaskManager (src/os/src/task/mod.rs) -/

/-- `TaskManagerInner`: the task table plus the id of the current task. -/
structure TaskManagerInner where
  tasks : List TaskControlBlock
  current_task : Nat
deriving DecidableEq, Repr

/-- The scan order of `TaskManager::find_next_task`: positions
`current + 1 .. current + num_app + 1`, each reduced `% num_app`. -/
def scanIds (current num_app : Nat) : List Nat :=
  (countFrom (current + 1) num_app).map (fun id => id % num_app)

/-- `TaskManager::find_next_task`: first position in scan order whose task
has status `Ready`. -/
def find_next_task (num_app : Nat) (inner : TaskManagerInner) : Option Nat :=
  (scanIds inner.current_task num_app).find?
    (fun id => decide (statusAt inner.tasks id = TaskStatus.Ready))

/-- `TaskManager::mark_current_suspended`: set the current task `Ready`. -/
def mark_current_suspended (inner : TaskManagerInner) : TaskManagerInner :=
  { inner with
    tasks := listModify inner.tasks inner.current_task
      (fun t => { t with task_status := TaskStatus.Ready }) }

/-- `TaskManager::mark_current_exited`: set the current task `Exited`. -/
def mark_current_exited (inner : TaskManagerInner) : TaskManagerInner :=
  { inner with
    tasks := listModify inner.tasks inner.current_task
      (fun t => { t with task_status := TaskStatus.Exited }) }

/-- `TaskManager::run_first_task`: mark task 0 `Running`; set its
`start_time` if the `-1` sentinel is observed, and panic (`task0 is running`)
otherwise. `now` is the value of `get_time_ms()`. -/
def run_first_task (now : Nat) (inner : TaskManagerInner) :
    Except String TaskManagerInner :=
  match listGet? inner.tasks 0 with
  | none => Except.error "index out of bounds"
  | some t0 =>
    if t0.start_time = -1 then
      Except.ok { inner with
        tasks := listModify inner.tasks 0
          (fun t => { t with task_status := TaskStatus.Running,
                             start_time := (now : Int) }) }
    else Except.error "task0 is running"

/-- `TaskManager::run_next_task`: switch to the first `Ready` task in scan
order, setting its status to `Running` and its `start_time` when the `-1`
sentinel is observed; panic `All applications completed!` when no `Ready`
task exists. -/
def run_next_task (num_app now : Nat) (inner : TaskManagerInner) :
    Except String TaskManagerInner :=
  match find_next_task num_app inner with
  | some next =>
    Except.ok
      { tasks :=
          listModify inner.tasks next
            (fun t =>
              { t with
                task_status := TaskStatus.Running,
                start_time :=
                  if t.start_time = -1 then (now : Int) else t.start_time }),
        current_task := next }
  | none => Except.error "All applications completed!"

/-- `TaskManager::curr_vpnrange_exist_map`: is some page of
`[startVpn, endVpn)` already mapped in the current task's address space? -/
def TaskManager.curr_vpnrange_exist_map (inner : TaskManagerInner)
    (startVpn endVpn : Nat) : Bool :=
  match listGet? inner.tasks inner.current_task with
  | some t => (countFrom startVpn (endVpn - startVpn)).any
      (fun vpn => t.memory_set.vpn_ismap vpn)
  | none => false

/-- `TaskManager::curr_mmap`: insert the area `[start_va, end_va)` into the
current task's address space. -/
def TaskManager.curr_mmap (inner : TaskManagerInner) (start_va end_va : Nat) :
    TaskManagerInner :=
  { inner with
    tasks :=
      listModify inner.tasks inner.current_task
        (fun t =>
          { t with
            memory_set :=
              t.memory_set.insert_framed_area (VirtAddr.floor start_va)
                (VirtAddr.ceil end_va) }) }

/-- Module-level `curr_mmap(start, len, port)` (src/os/src/task/mod.rs):
validate alignment of `start`, the permission bits of `port`
(`port & !0x7 != 0` rejects bits above the low three, `port & 0x7 == 0`
rejects an empty permission set) and overlap with existing mappings; on
success insert the new area and return 0, otherwise return -1.
The `port <<= 1; MapPermission::from_bits(..) | U` conversion only shapes the
permission flags, which the mapped/unmapped model does not track. -/
def curr_mmap (inner : TaskManagerInner) (start len port : Nat) :
    Int × TaskManagerInner :=
  let start_va := start
  let end_va := start + len
  if (!(VirtAddr.aligned start_va)
      || (port &&& (USIZE_MOD - 8)) != 0
      || (port &&& 7) == 0
      || TaskManager.curr_vpnrange_exist_map inner (VirtAddr.floor start_va)
           (VirtAddr.ceil end_va)) then
    (-1, inner)
  else
    (0, TaskManager.curr_mmap inner start_va end_va)

/-! ## Processor and the stride scheduling loop (src/os/src/task/processor.rs) -/

/-- State shared by `PROCESSOR` and the task table it draws from: the table
of TCBs (the `Arc<TaskControlBlock>` held by the Processor aliases the
table's entry, represented by its stable position) and the Processor's
`current` cell. -/
structure PSystem where
  tasks : List TaskControlBlock
  current : Option Nat
deriving DecidableEq, Repr

/-- `take_current_task`: move the current task out of the Processor, leaving
`None` in its place; returns the moved-out task together with the new
state. -/
def take_current_task (s : PSystem) : Option Nat × PSystem :=
  (s.current, { s with current := none })

/-- `restore_current_task`: store a task back into the Processor's cell. -/
def restore_current_task (s : PSystem) (i : Nat) : PSystem :=
  { s with current := some i }

/-- `current_task`: clone of the Processor's current cell. -/
def current_task (s : PSystem) : Option Nat :=
  s.current

/-- Is the task at position `i` `Ready`? -/
def isReadyAt (tasks : List TaskControlBlock) (i : Nat) : Bool :=
  decide (statusAt tasks i = TaskStatus.Ready)

/-- Modelled from the spec: `fetch_task` (the stride-policy selection of the
task queue; its source file is not under src/): among `Ready` tasks select the
one with the numerically smallest `stride`, ties broken by lowest stable
position; `none` when no `Ready` task exists. -/
def fetch_task (tasks : List TaskControlBlock) : Option Nat :=
  ((countFrom 0 tasks.length).filter (isReadyAt tasks)).foldl
    (fun best i =>
      match best with
      | none => some i
      | some b => if strideAt tasks i < strideAt tasks b then some i else best)
    none

/-- Outcome of one iteration of the `run_tasks` scheduling loop. -/
inductive RunOutcome where
  | switched (i : Nat)
  | warned
deriving DecidableEq, Repr

/-- One iteration of `run_tasks`: if `fetch_task` yields a task, mark it
`Running`, set its `start_time` when the `-1` sentinel is observed, add
`BIG_STRIDE / prior` to its stride (wrapping `usize` addition), record it as
current and switch to it; otherwise emit `warn!("no tasks available in
run_tasks")` and fall through to the next loop iteration. `BS` is the
`BIG_STRIDE` constant (src/os/src/config.rs, not under src/), `now` the value
of `get_time_ms()`. -/
def run_tasksStep (BS now : Nat) (s : PSystem) : RunOutcome × PSystem :=
  match fetch_task s.tasks with
  | some i =>
    (RunOutcome.switched i,
      { tasks :=
          listModify s.tasks i
            (fun t =>
              { t with
                task_status := TaskStatus.Running,
                start_time :=
                  if t.start_time = -1 then (now : Int) else t.start_time,
                stride := (t.stride + BS / t.prior) % USIZE_MOD }),
        current := some i })
  | none => (RunOutcome.warned, s)

/-- The `run_tasks` loop run for one iteration per entry of `nows` (the
successive `get_time_ms()` readings), collecting each iteration's outcome. -/
def run_tasksIter (BS : Nat) (nows : List Nat) (s : PSystem) :
    List RunOutcome × PSystem :=
  match nows with
  | [] => ([], s)
  | now :: rest =>
    ((run_tasksStep BS now s).1 ::
        (run_tasksIter BS rest (run_tasksStep BS now s).2).1,
      (run_tasksIter BS rest (run_tasksStep BS now s).2).2)

/-- `curr_set_priority`: take the current task (panicking — `none` — when
the Processor holds none), overwrite its `prior` field with `prio as usize`,
and restore the same task. -/
def curr_set_priority (s : PSystem) (prio : Int) : Option PSystem :=
  match s.current with
  | none => none
  | some i =>
    some { s with
      tasks := listModify s.tasks i (fun t => { t with prior := intToUsize prio }) }

/-- Modelled from the spec: the `sys_set_priority` syscall wrapper (its
source file is not under src/): `set_priority(value)` rejects values below
the minimum priority 2 with result `-1` and no state change; otherwise it
stores the value through `curr_set_priority` and reports success. -/
def sys_set_priority (s : PSystem) (prio : Int) : Option (Int × PSystem) :=
  if prio < 2 then some (-1, s)
  else (curr_set_priority s prio).map (fun s1 => (prio, s1))

/-- `add_current_syscall_cnt` (processor.rs): resolve `syscall_id` in
`SYSCALL_TONG` (panicking — `none` — when absent), then take the current
task, bump its counter at the resolved index, and restore the task. `tong`
is the `SYSCALL_TONG` table (src/os/src/syscall, not under src/), passed as a
parameter. -/
def Proc.add_current_syscall_cnt (tong : List Nat) (syscall_id : Nat)
    (s : PSystem) : Option PSystem :=
  match tong.findIdx? (fun val => val == syscall_id) with
  | some id =>
    match s.current with
    | none => none
    | some i =>
      some { s with
        tasks := listModify s.tasks i
          (fun t => { t with syscall_times := listModify t.syscall_times id (· + 1) }) }
  | none => none

/-- The re-indexing loop of `get_current_info`: starting from an all-zero
array of length `MAX_SYSCALL_NUM`, write each tracked counter at index
`SYSCALL_TONG[id]`. -/
def reindexCounts (tong counts acc : List Nat) : List Nat :=
  match tong, counts with
  | tid :: ttail, c :: ctail =>
    reindexCounts ttail ctail (listModify acc tid (fun _ => c))
  | _, _ => acc

/-- The `TaskInfo` record written by `get_current_info`. -/
structure TaskInfo where
  status : TaskStatus
  syscall_times : List Nat
  time : Nat
deriving DecidableEq, Repr

/-- `get_current_info` (processor.rs; the mod.rs variant computes the same
record from the same fields): report the current task's status, its syscall
counters re-indexed by syscall number, and
`time = get_time_ms() - start_time as usize` in wrapping `usize` arithmetic.
`maxSys` is `MAX_SYSCALL_NUM` (src/os/src/config.rs, not under src/). -/
def get_current_info (tong : List Nat) (maxSys now : Nat) (s : PSystem) :
    Option TaskInfo :=
  match s.current with
  | none => none
  | some i =>
    match listGet? s.tasks i with
    | none => none
    | some t =>
      some { status := t.task_status,
             syscall_times := reindexCounts tong t.syscall_times (List.replicate maxSys 0),
             time := usizeSub now (intToUsize t.start_time) }

/-- Modelled from the spec: the processor-path suspend
(`suspend_current_and_run_next`, whose ch5 source file is not under src/):
take the current task out of the Processor, mark it `Ready`, and return to
the idle loop through `schedule`. Panics (`none`) when no task is current. -/
def suspend_current (s : PSystem) : Option PSystem :=
  match s.current with
  | none => none
  | some i =>
    some { tasks := listModify s.tasks i
             (fun t => { t with task_status := TaskStatus.Ready }),
           current := none }

/-- Modelled from the spec: the processor-path exit
(`exit_current_and_run_next`, whose ch5 source file is not under src/): take
the current task, mark it `Exited`, and return to the idle loop. -/
def exit_current (s : PSystem) : Option PSystem :=
  match s.current with
  | none => none
  | some i =>
    some { tasks := listModify s.tasks i
             (fun t => { t with task_status := TaskStatus.Exited }),
           current := none }

/-- Events of the processor-side scheduling machine: one `run_tasks`
iteration (legal only while the idle context has control, i.e. the `current`
cell is empty — control re-enters the loop only through `schedule`, which
runs after the current task was released), a suspend, an exit, or a
`set_priority` call from the running task. -/
inductive POp where
  | runStep (now : Nat)
  | suspendCurrent
  | exitCurrent
  | setPriority (v : Int)
deriving DecidableEq, Repr

/-- Apply one event; `none` models a panic or an impossible control flow. -/
def applyPOp (BS : Nat) (op : POp) (s : PSystem) : Option PSystem :=
  match op with
  | POp.runStep now =>
    match s.current with
    | some _ => none
    | none => some (run_tasksStep BS now s).2
  | POp.suspendCurrent => suspend_current s
  | POp.exitCurrent => exit_current s
  | POp.setPriority v => (sys_set_priority s v).map (fun r => r.2)

/-- Apply a sequence of events. -/
def applyPOps (BS : Nat) (ops : List POp) (s : PSystem) : Option PSystem :=
  match ops with
  | [] => some s
  | op :: rest =>
    match applyPOp BS op s with
    | some s1 => applyPOps BS rest s1
    | none => none

/-- Does this event grant a scheduling quantum to task `i` from state
`tasks`? (Only a `run_tasks` iteration whose `fetch_task` selects `i`.) -/
def isGrantTo (op : POp) (tasks : List TaskControlBlock) (i : Nat) : Bool :=
  match op with
  | POp.runStep _ => fetch_task tasks == some i
  | _ => false

/-- Number of scheduling quanta granted to task `i` along a trace: the
`runStep` events whose `fetch_task` selects `i`. -/
def grantsTo (BS i : Nat) (ops : List POp) (s : PSystem) : Nat :=
  match ops with
  | [] => 0
  | op :: rest =>
    match applyPOp BS op s with
    | none => 0
    | some s1 =>
      (if isGrantTo op s.tasks i then 1 else 0) + grantsTo BS i rest s1

/-! ## easy-fs directory layer (src/easy-fs/src/vfs.rs) -/

/-- A directory entry: a name and the inode id it points to (`DirEntry::new`
takes an `i32`; `remove_dirent` overwrites removed slots with inode id `-1`). -/
structure FsDirEntry where
  name : String
  inode_id : Int
deriving DecidableEq, Repr

/-- `DirEntry::is_valid` (layout.rs is not under src/; modelled from its use
in `remove_dirent`, which invalidates a slot by writing inode id `-1`). -/
def FsDirEntry.is_valid (d : FsDirEntry) : Bool := d.inode_id != -1

/-- State of the file system visible to `Inode::create` on the root
directory: the directory's entries in slot order, and the inode allocator
(`EasyFileSystem::alloc_inode` over a bitmap, not under src/; modelled as a
fresh-id counter — each allocation returns an id never returned before). -/
structure EfsState where
  dirents : List FsDirEntry
  nextInode : Nat
deriving DecidableEq, Repr

/-- `Inode::find_inode_id`: scan the directory entries in slot order and
return the inode id of the first whose name matches (validity is not
checked by the source). -/
def find_inode_id (dirents : List FsDirEntry) (name : String) : Option Int :=
  (dirents.find? (fun d => d.name == name)).map (fun d => d.inode_id)

/-- `Inode::append_dirent`: overwrite the first invalid slot with the new
entry, or append it at the end when every slot is valid. (The link-count
increment on the target inode touches no directory state.) -/
def append_dirent (dirents : List FsDirEntry) (name : String) (inode_id : Int) :
    List FsDirEntry :=
  match dirents with
  | [] => [{ name := name, inode_id := inode_id }]
  | d :: rest =>
    if !(d.is_valid) then { name := name, inode_id := inode_id } :: rest
    else d :: append_dirent rest name inode_id

/-- `Inode::create`: return `None` without allocating when an entry with the
name already exists; otherwise allocate a fresh file inode, add a directory
entry for it, and return the new inode('s id). -/
def Inode.create (st : EfsState) (name : String) : Option Nat × EfsState :=
  if (find_inode_id st.dirents name).isSome then
    (none, st)
  else
    let new_inode_id := st.nextInode
    (some new_inode_id,
      { dirents := append_dirent st.dirents name (new_inode_id : Int),
        nextInode := st.nextInode + 1 })

/-! ## Helper lemmas about the embedding -/

theorem listGet?_some_lt {α : Type} (l : List α) (i : Nat) (a : α)
    (h : listGet? l i = some a) : i < l.length := by
  by_contra hc
  rw [listGet?_none l i (by omega)] at h
  cases h

theorem listGet?_mem {α : Type} (l : List α) (i : Nat) (a : α)
    (h : listGet? l i = some a) : a ∈ l := by
  induction l generalizing i with
  | nil => cases i <;> cases h
  | cons b t ih =>
    cases i with
    | zero => cases h; exact List.mem_cons_self _ _
    | succ n => exact List.mem_cons_of_mem _ (ih n h)

theorem listGet?_map {α β : Type} (f : α → β) (l : List α) (i : Nat) :
    listGet? (l.map f) i = (listGet? l i).map f := by
  induction l generalizing i with
  | nil => cases i <;> rfl
  | cons a t ih =>
    cases i with
    | zero => rfl
    | succ n => simpa [listGet?] using ih n

theorem statusAt_modify (tasks : List TaskControlBlock) (j : Nat)
    (f : TaskControlBlock → TaskControlBlock) (i : Nat)
    (hf : ∀ t, (f t).task_status = t.task_status) :
    statusAt (listModify tasks j f) i = statusAt tasks i := by
  unfold statusAt
  by_cases hij : i = j
  · subst hij
    rw [listGet?_listModify_self]
    cases listGet? tasks i with
    | none => rfl
    | some t => simp [hf t]
  · rw [listGet?_listModify_other _ _ _ _ hij]

theorem strideAt_modify (tasks : List TaskControlBlock) (j : Nat)
    (f : TaskControlBlock → TaskControlBlock) (i : Nat)
    (hf : ∀ t, (f t).stride = t.stride) :
    strideAt (listModify tasks j f) i = strideAt tasks i := by
  unfold strideAt
  by_cases hij : i = j
  · subst hij
    rw [listGet?_listModify_self]
    cases listGet? tasks i with
    | none => rfl
    | some t => simp [hf t]
  · rw [listGet?_listModify_other _ _ _ _ hij]

theorem priorAt_modify (tasks : List TaskControlBlock) (j : Nat)
    (f : TaskControlBlock → TaskControlBlock) (i : Nat)
    (hf : ∀ t, (f t).prior = t.prior) :
    priorAt (listModify tasks j f) i = priorAt tasks i := by
  unfold priorAt
  by_cases hij : i = j
  · subst hij
    rw [listGet?_listModify_self]
    cases listGet? tasks i with
    | none => rfl
    | some t => simp [hf t]
  · rw [listGet?_listModify_other _ _ _ _ hij]

theorem startTimeAt_modify (tasks : List TaskControlBlock) (j : Nat)
    (f : TaskControlBlock → TaskControlBlock) (i : Nat)
    (hf : ∀ t, (f t).start_time = t.start_time) :
    startTimeAt (listModify tasks j f) i = startTimeAt tasks i := by
  unfold startTimeAt
  by_cases hij : i = j
  · subst hij
    rw [listGet?_listModify_self]
    cases listGet? tasks i with
    | none => rfl
    | some t => simp [hf t]
  · rw [listGet?_listModify_other _ _ _ _ hij]

theorem foldl_pick_mem (tasks : List TaskControlBlock) (l : List Nat)
    (acc : Option Nat) (r : Nat)
    (h : l.foldl
      (fun best i =>
        match best with
        | none => some i
        | some b => if strideAt tasks i < strideAt tasks b then some i else best)
      acc = some r) : r ∈ l ∨ acc = some r := by
  induction l generalizing acc with
  | nil => exact Or.inr h
  | cons x t ih =>
    simp only [List.foldl_cons] at h
    rcases ih _ h with hm | hacc
    · exact Or.inl (List.mem_cons_of_mem _ hm)
    · cases acc with
      | none =>
        simp at hacc
        exact Or.inl (hacc ▸ List.mem_cons_self _ _)
      | some b =>
        by_cases hlt : strideAt tasks x < strideAt tasks b
        · simp [hlt] at hacc
          exact Or.inl (hacc ▸ List.mem_cons_self _ _)
        · simp [hlt] at hacc
          exact Or.inr (by rw [hacc])

/-- A task selected by the (spec-modelled) stride `fetch_task` is in range
and `Ready`. -/
theorem fetch_task_some_ready (tasks : List TaskControlBlock) (i : Nat)
    (h : fetch_task tasks = some i) :
    i < tasks.length ∧ statusAt tasks i = TaskStatus.Ready := by
  unfold fetch_task at h
  rcases foldl_pick_mem tasks _ none i h with hm | hacc
  · rw [List.mem_filter] at hm
    obtain ⟨hrange, hready⟩ := hm
    rw [mem_countFrom] at hrange
    refine ⟨by omega, ?_⟩
    unfold isReadyAt at hready
    exact of_decide_eq_true hready
  · cases hacc

/-! ## Claim theorems -/

/-- A sample `Ready` task used by the concrete witnesses below. -/
def tcbReadySample : TaskControlBlock :=
  { task_status := TaskStatus.Ready, start_time := -1, stride := 0,
    prior := 16, syscall_times := [0, 0], memory_set := { mapped := [] } }

/-- A sample `Running` task used by the concrete witnesses below. -/
def tcbRunningSample : TaskControlBlock :=
  { task_status := TaskStatus.Running, start_time := 3, stride := 0,
    prior := 16, syscall_times := [0, 0], memory_set := { mapped := [] } }

/-- Claim C9: after `take_current` returns the current task the Processor's
cell is empty — `current` and a second `take_current` observe no current task
— until `restore_current` stores a task back, which makes exactly the passed
task current again; `add_current_syscall_cnt`, which brackets its update in
`take`/`restore`, leaves the same task current. -/
theorem c9_take_restore_exclusive (s : PSystem) (t : Nat)
    (h : s.current = some t) :
    (take_current_task s).1 = some t ∧
    current_task (take_current_task s).2 = none ∧
    (take_current_task (take_current_task s).2).1 = none ∧
    current_task (restore_current_task (take_current_task s).2 t) = some t ∧
    (∀ tong id s1, Proc.add_current_syscall_cnt tong id s = some s1 →
      current_task s1 = some t) := by
  refine ⟨by simp [take_current_task, h], rfl, rfl, rfl, ?_⟩
  intro tong id s1 h1
  unfold Proc.add_current_syscall_cnt at h1
  cases hidx : tong.findIdx? (fun val => val == id) with
  | none => rw [hidx] at h1; cases h1
  | some k =>
    rw [hidx, h] at h1
    cases h1
    simp [current_task, h]

/-- Witness for C9 at a concrete one-task state. -/
theorem c9_take_restore_exclusive_witness :
    (take_current_task { tasks := [tcbRunningSample], current := some 0 }).1 = some 0 ∧
    current_task (take_current_task { tasks := [tcbRunningSample], current := some 0 }).2 = none ∧
    (take_current_task (take_current_task { tasks := [tcbRunningSample], current := some 0 }).2).1 = none ∧
    current_task (restore_current_task
      (take_current_task { tasks := [tcbRunningSample], current := some 0 }).2 0) = some 0 ∧
    (∀ tong id s1,
      Proc.add_current_syscall_cnt tong id { tasks := [tcbRunningSample], current := some 0 } = some s1 →
      current_task s1 = some 0) :=
  c9_take_restore_exclusive { tasks := [tcbRunningSample], current := some 0 } 0 rfl

/-- Claim C8: round-robin `find_next_task` scans positions
`(current+1) .. (current+N)` modulo `N` and returns the first `Ready`
position (lowest scan order wins); it returns `none` exactly when no position
holds a `Ready` task, and a returned position is always `Ready` (never
`Running`, `Exited` or `UnInit`). -/
theorem c8_find_next_task_round_robin (num_app : Nat) (inner : TaskManagerInner) :
    (∀ id, find_next_task num_app inner = some id →
      statusAt inner.tasks id = TaskStatus.Ready ∧
      ∃ j, j < num_app ∧ id = (inner.current_task + 1 + j) % num_app ∧
        ∀ j1, j1 < j →
          statusAt inner.tasks ((inner.current_task + 1 + j1) % num_app) ≠
            TaskStatus.Ready) ∧
    (find_next_task num_app inner = none ↔
      ∀ id, id < num_app → statusAt inner.tasks id ≠ TaskStatus.Ready) := by
  constructor
  · intro id hfind
    unfold find_next_task at hfind
    obtain ⟨k, hk, hget, hp, hfirst⟩ := find?_some_first _ _ _ hfind
    have hklen : k < num_app := by
      simpa [scanIds, countFrom_length] using hk
    have hgetk : listGet? (scanIds inner.current_task num_app) k =
        some ((inner.current_task + 1 + k) % num_app) := by
      unfold scanIds
      rw [listGet?_map, listGet?_countFrom _ _ _ hklen]
      rfl
    rw [hgetk] at hget
    cases hget
    refine ⟨of_decide_eq_true hp, k, hklen, rfl, ?_⟩
    intro j1 hj1 hready
    have hgetj1 : listGet? (scanIds inner.current_task num_app) j1 =
        some ((inner.current_task + 1 + j1) % num_app) := by
      unfold scanIds
      rw [listGet?_map, listGet?_countFrom _ _ _ (by omega)]
      rfl
    have := hfirst j1 hj1 _ hgetj1
    rw [decide_eq_false_iff_not] at this
    exact this hready
  · unfold find_next_task
    rw [find?_eq_none_iff]
    constructor
    · intro h id hid hready
      -- position id is hit by the scan at offset j
      have hn : 0 < num_app := by omega
      set r := (inner.current_task + 1) % num_app with hr
      have hrlt : r < num_app := Nat.mod_lt _ hn
      set j := if r ≤ id then id - r else id + num_app - r with hj
      have hjlt : j < num_app := by
        rw [hj]; split <;> omega
      have hhit : (inner.current_task + 1 + j) % num_app = id := by
        rw [Nat.add_mod (inner.current_task + 1) j, ← hr,
          Nat.mod_eq_of_lt hjlt]
        rw [hj]
        by_cases hcase : r ≤ id
        · rw [if_pos hcase]
          have : r + (id - r) = id := by omega
          rw [this, Nat.mod_eq_of_lt hid]
        · rw [if_neg hcase]
          have : r + (id + num_app - r) = id + num_app := by omega
          rw [this, Nat.add_mod_right, Nat.mod_eq_of_lt hid]
      have hget : listGet? (scanIds inner.current_task num_app) j = some id := by
        unfold scanIds
        rw [listGet?_map, listGet?_countFrom _ _ _ hjlt]
        simpa using hhit
      have := h j id hget
      rw [decide_eq_false_iff_not] at this
      exact this hready
    · intro h k a hget
      have hk : k < num_app := by
        have := listGet?_some_lt _ _ _ hget
        simpa [scanIds, countFrom_length] using this
      have hn : 0 < num_app := by omega
      have hgetk : listGet? (scanIds inner.current_task num_app) k =
          some ((inner.current_task + 1 + k) % num_app) := by
        unfold scanIds
        rw [listGet?_map, listGet?_countFrom _ _ _ hk]
        rfl
      rw [hgetk] at hget
      cases hget
      rw [decide_eq_false_iff_not]
      exact h _ (Nat.mod_lt _ hn)

/-- Witness for C8 at a concrete two-task table (task 0 `Running`,
task 1 `Ready`, current = 0): the scan selects task 1. -/
theorem c8_find_next_task_round_robin_witness :
    (∀ id, find_next_task 2
        { tasks := [tcbRunningSample, tcbReadySample], current_task := 0 } = some id →
      statusAt [tcbRunningSample, tcbReadySample] id = TaskStatus.Ready ∧
      ∃ j, j < 2 ∧ id = (0 + 1 + j) % 2 ∧
        ∀ j1, j1 < j →
          statusAt [tcbRunningSample, tcbReadySample] ((0 + 1 + j1) % 2) ≠
            TaskStatus.Ready) ∧
    (find_next_task 2
        { tasks := [tcbRunningSample, tcbReadySample], current_task := 0 } = none ↔
      ∀ id, id < 2 →
        statusAt [tcbRunningSample, tcbReadySample] id ≠ TaskStatus.Ready) :=
  c8_find_next_task_round_robin 2
    { tasks := [tcbRunningSample, tcbReadySample], current_task := 0 }

theorem append_dirent_contains (dirents : List FsDirEntry) (name : String)
    (inode_id : Int) :
    ∃ k, listGet? (append_dirent dirents name inode_id) k =
      some { name := name, inode_id := inode_id } := by
  induction dirents with
  | nil => exact ⟨0, rfl⟩
  | cons d rest ih =>
    by_cases hv : d.is_valid
    · obtain ⟨k, hk⟩ := ih
      refine ⟨k + 1, ?_⟩
      simpa [append_dirent, hv, listGet?] using hk
    · refine ⟨0, ?_⟩
      simp [append_dirent, hv, listGet?]

theorem append_dirent_preserves_valid (dirents : List FsDirEntry) (name : String)
    (inode_id : Int) (k : Nat) (d : FsDirEntry)
    (hget : listGet? dirents k = some d) (hv : d.is_valid = true) :
    listGet? (append_dirent dirents name inode_id) k = some d := by
  induction dirents generalizing k with
  | nil => cases k <;> cases hget
  | cons e rest ih =>
    by_cases hev : e.is_valid
    · cases k with
      | zero =>
        cases hget
        simp [append_dirent, hev, listGet?]
      | succ n =>
        simpa [append_dirent, hev, listGet?] using ih n hget
    · cases k with
      | zero =>
        cases hget
        exact absurd hv hev
      | succ n =>
        simpa [append_dirent, hev, listGet?] using hget

/-- Claim C10: `Inode::create(name)` on the directory returns `None` with no
inode allocated and no directory entry written when an entry with that name
already exists; when the name is absent it allocates exactly one fresh file
inode, adds a directory entry binding the name to it (every valid existing
entry stays in place), and returns the new inode. -/
theorem c10_create_no_duplicate (st : EfsState) (name : String) :
    ((find_inode_id st.dirents name).isSome = true →
      Inode.create st name = (none, st)) ∧
    ((find_inode_id st.dirents name).isSome = false →
      Inode.create st name =
        (some st.nextInode,
          { dirents := append_dirent st.dirents name (st.nextInode : Int),
            nextInode := st.nextInode + 1 }) ∧
      (∃ k, listGet? (Inode.create st name).2.dirents k =
        some { name := name, inode_id := (st.nextInode : Int) }) ∧
      (∀ k d, listGet? st.dirents k = some d → d.is_valid = true →
        listGet? (Inode.create st name).2.dirents k = some d) ∧
      (Inode.create st name).2.nextInode = st.nextInode + 1) := by
  constructor
  · intro hfound
    unfold Inode.create
    rw [if_pos hfound]
  · intro habsent
    have hcond : (find_inode_id st.dirents name).isSome = false := habsent
    constructor
    · unfold Inode.create
      rw [if_neg (by simp [hcond])]
    · have hcreate : (Inode.create st name).2 =
          { dirents := append_dirent st.dirents name (st.nextInode : Int),
            nextInode := st.nextInode + 1 } := by
        unfold Inode.create
        rw [if_neg (by simp [hcond])]
      refine ⟨?_, ?_, ?_⟩
      · rw [hcreate]
        exact append_dirent_contains st.dirents name (st.nextInode : Int)
      · intro k d hget hv
        rw [hcreate]
        exact append_dirent_preserves_valid st.dirents name _ k d hget hv
      · rw [hcreate]

/-- Witness for C10: creating `"a"` twice in an initially empty directory —
the first call allocates inode 0 and writes the entry, the second returns
`None` and changes nothing. -/
theorem c10_create_no_duplicate_witness :
    (Inode.create { dirents := [], nextInode := 0 } "a" =
      (some 0, { dirents := [{ name := "a", inode_id := 0 }], nextInode := 1 })) ∧
    (Inode.create { dirents := [{ name := "a", inode_id := 0 }], nextInode := 1 } "a" =
      (none, { dirents := [{ name := "a", inode_id := 0 }], nextInode := 1 })) := by
  constructor
  · exact ((c10_create_no_duplicate { dirents := [], nextInode := 0 } "a").2
      (by decide)).1
  · exact (c10_create_no_duplicate
      { dirents := [{ name := "a", inode_id := 0 }], nextInode := 1 } "a").1
      (by decide)

/-- Claim C1: `set_priority(v)` with `v` below the minimum priority 2 is
rejected (result `-1`) with the state — in particular the current task's
priority — unchanged; with `v ≥ 2` it overwrites the current task's priority,
and any subsequent stride grant to that task increments its stride by
`BIG_STRIDE / v`. -/
theorem c1_set_priority_bound (s : PSystem) (i : Nat) (v : Int)
    (hc : s.current = some i) (hlen : i < s.tasks.length) :
    (v < 2 → sys_set_priority s v = some (-1, s)) ∧
    (2 ≤ v → ∃ s1, sys_set_priority s v = some (v, s1) ∧
      s1.current = some i ∧
      priorAt s1.tasks i = intToUsize v ∧
      (∀ j, j ≠ i → listGet? s1.tasks j = listGet? s.tasks j) ∧
      (∀ u : PSystem, ∀ BS now, priorAt u.tasks i = intToUsize v →
        fetch_task u.tasks = some i →
        strideAt (run_tasksStep BS now u).2.tasks i =
          (strideAt u.tasks i + BS / intToUsize v) % USIZE_MOD)) := by
  constructor
  · intro hv
    unfold sys_set_priority
    rw [if_pos hv]
  · intro hv
    obtain ⟨t, ht⟩ := listGet?_isSome s.tasks i hlen
    refine ⟨⟨listModify s.tasks i (fun t0 => { t0 with prior := intToUsize v }),
      s.current⟩, ?_, hc, ?_, ?_, ?_⟩
    · unfold sys_set_priority curr_set_priority
      rw [if_neg (by omega), hc]
      rfl
    · unfold priorAt
      rw [listGet?_listModify_self, ht]
      rfl
    · intro j hj
      exact listGet?_listModify_other _ _ _ _ hj
    · intro u BS now hprior hfetch
      obtain ⟨hu, _⟩ := fetch_task_some_ready u.tasks i hfetch
      obtain ⟨tu, htu⟩ := listGet?_isSome u.tasks i hu
      unfold run_tasksStep
      rw [hfetch]
      unfold strideAt
      rw [listGet?_listModify_self, htu]
      unfold priorAt at hprior
      rw [htu] at hprior
      have hp2 : tu.prior = intToUsize v := hprior
      show (tu.stride + BS / tu.prior) % USIZE_MOD =
        (tu.stride + BS / intToUsize v) % USIZE_MOD
      rw [hp2]

/-- Witness for C1: a two-call scenario on a concrete one-task state —
`set_priority(0)` is rejected and leaves the state unchanged, and
`set_priority(7)` overwrites the priority with 7. -/
theorem c1_set_priority_bound_witness :
    sys_set_priority { tasks := [tcbRunningSample], current := some 0 } 0 =
      some (-1, { tasks := [tcbRunningSample], current := some 0 }) ∧
    ∃ s1, sys_set_priority { tasks := [tcbRunningSample], current := some 0 } 7 =
        some (7, s1) ∧ priorAt s1.tasks 0 = intToUsize 7 := by
  constructor
  · exact (c1_set_priority_bound
      { tasks := [tcbRunningSample], current := some 0 } 0 0 rfl
      (by decide)).1 (by decide)
  · obtain ⟨s1, h1, _, h3, _, _⟩ := (c1_set_priority_bound
      { tasks := [tcbRunningSample], current := some 0 } 0 7 rfl
      (by decide)).2 (by decide)
    exact ⟨s1, h1, h3⟩

/-- A one-task state whose only task has exited: no `Ready` task remains. -/
def psExhausted : PSystem :=
  { tasks := [{ task_status := TaskStatus.Exited, start_time := 3, stride := 16,
                prior := 16, syscall_times := [0, 0], memory_set := { mapped := [] } }],
    current := none }

/-- Counterexample to claim C2 as stated: on a state with no `Ready` task the
`run_tasks` loop does not halt — the first iteration merely warns (a
non-fatal report) and the loop runs a second iteration that performs another
selection attempt, contradicting that the scheduler "never resumes selection
afterwards". -/
theorem c2_exhaustion_cex :
    run_tasksIter 100 [7, 8] psExhausted =
      ([RunOutcome.warned, RunOutcome.warned], psExhausted) := by
  rfl

/-- Claim C2 (amended): when no `Ready` task exists,
`TaskManager::run_next_task` panics (`All applications completed!`) — a fatal
permanent halt — whereas `Processor::run_tasks` emits a non-fatal warning,
leaves the state unchanged, and re-attempts selection on every subsequent
loop iteration without ever context-switching. -/
theorem c2_exhaustion_behavior (num_app now BS : Nat) (inner : TaskManagerInner)
    (s : PSystem) (hfind : find_next_task num_app inner = none)
    (hfetch : fetch_task s.tasks = none) :
    run_next_task num_app now inner = Except.error "All applications completed!" ∧
    (∀ nows, run_tasksIter BS nows s =
      (nows.map (fun _ => RunOutcome.warned), s)) := by
  constructor
  · unfold run_next_task
    rw [hfind]
  · intro nows
    induction nows with
    | nil => rfl
    | cons n rest ih =>
      unfold run_tasksIter
      have hstep : run_tasksStep BS n s = (RunOutcome.warned, s) := by
        unfold run_tasksStep
        rw [hfetch]
      rw [hstep]
      dsimp only
      rw [ih]
      rfl

/-- The TaskManager counterpart of [psExhausted]: one exited task. -/
def tmExhausted : TaskManagerInner :=
  { tasks := [{ task_status := TaskStatus.Exited, start_time := 3, stride := 16,
                prior := 16, syscall_times := [0, 0], memory_set := { mapped := [] } }],
    current_task := 0 }

/-- Witness for the amended C2 at concrete exhausted states. -/
theorem c2_exhaustion_behavior_witness :
    run_next_task 1 5 tmExhausted = Except.error "All applications completed!" ∧
    run_tasksIter 100 [7] psExhausted = ([RunOutcome.warned], psExhausted) :=
  ⟨(c2_exhaustion_behavior 1 5 100 tmExhausted psExhausted rfl rfl).1,
   (c2_exhaustion_behavior 1 5 100 tmExhausted psExhausted rfl rfl).2 [7]⟩

/-- A current task that never entered `Running` by the book: its `start_time`
still holds the `-1` sentinel. Used to exhibit the missing guard in
`get_current_info`. -/
def psPremature : PSystem :=
  { tasks := [{ task_status := TaskStatus.Running, start_time := -1, stride := 0,
                prior := 16, syscall_times := [0, 0], memory_set := { mapped := [] } }],
    current := some 0 }

/-- Counterexample to claim C6 as stated: `get_current_info` performs no
`start_time` guard — called while `start_time` is still the unset sentinel
`-1` it is not rejected; it answers with a wrapped-around elapsed time
(`now = 5` yields `time = 6`). -/
theorem c6_info_guard_cex :
    get_current_info [0, 1] 2 5 psPremature =
      some { status := TaskStatus.Running, syscall_times := [0, 0], time := 6 } := by
  rfl

/-- Claim C6 (amended): `get_current_info` never rejects a call: for any
current task it reports the task's status, its per-syscall counts re-indexed
by syscall number, and `time = now - start_time` computed in wrapping `usize`
arithmetic — equal to the true elapsed time whenever `start_time` has been
set (is non-negative and at most `now`), and a meaningless wrapped value when
the `-1` sentinel is still in place. -/
theorem c6_info_unguarded (tong : List Nat) (maxSys now : Nat) (s : PSystem)
    (i : Nat) (t : TaskControlBlock) (hc : s.current = some i)
    (ht : listGet? s.tasks i = some t) (hnow : now < USIZE_MOD) :
    get_current_info tong maxSys now s =
      some { status := t.task_status,
             syscall_times := reindexCounts tong t.syscall_times (List.replicate maxSys 0),
             time := usizeSub now (intToUsize t.start_time) } ∧
    (0 ≤ t.start_time → t.start_time ≤ (now : Int) →
      usizeSub now (intToUsize t.start_time) = now - t.start_time.toNat) := by
  constructor
  · unfold get_current_info
    rw [hc]
    dsimp only
    rw [ht]
  · intro hge hle
    have hMpos : (0 : Int) < (USIZE_MOD : Int) := by
      norm_num [USIZE_MOD]
    have hstlt : t.start_time < (USIZE_MOD : Int) := by omega
    have hmod : t.start_time % (USIZE_MOD : Int) = t.start_time :=
      Int.emod_emod_of_dvd _ (dvd_refl _) ▸ Int.emod_eq_of_lt hge hstlt
    have hiu : intToUsize t.start_time = t.start_time.toNat := by
      unfold intToUsize
      rw [hmod]
    rw [hiu]
    unfold usizeSub
    have hlen2 : t.start_time.toNat ≤ now := by omega
    have hltM : t.start_time.toNat < USIZE_MOD := by
      have : (t.start_time.toNat : Int) = t.start_time := Int.toNat_of_nonneg hge
      omega
    rw [Nat.mod_eq_of_lt hltM]
    have h1 : now + USIZE_MOD - t.start_time.toNat =
        (now - t.start_time.toNat) + USIZE_MOD := by omega
    rw [h1, Nat.add_mod_right]
    exact Nat.mod_eq_of_lt (by omega)

/-- Witness for the amended C6 at a concrete state whose current task has
`start_time = 3` and `now = 5`: elapsed is 2. -/
theorem c6_info_unguarded_witness :
    get_current_info [0, 1] 2 5 { tasks := [tcbRunningSample], current := some 0 } =
      some { status := TaskStatus.Running,
             syscall_times := reindexCounts [0, 1] [0, 0] (List.replicate 2 0),
             time := usizeSub 5 (intToUsize 3) } ∧
    usizeSub 5 (intToUsize 3) = 2 := by
  have h := c6_info_unguarded [0, 1] 2 5
    { tasks := [tcbRunningSample], current := some 0 } 0 tcbRunningSample rfl rfl
    (by norm_num [USIZE_MOD])
  exact ⟨h.1, h.2 (by norm_num [tcbRunningSample]) (by norm_num [tcbRunningSample])⟩

/-- One processor-machine event never changes an already-set `start_time`. -/
theorem startTime_applyPOp_preserved (BS : Nat) (op : POp) (s s1 : PSystem)
    (i : Nat) (happ : applyPOp BS op s = some s1)
    (hne : startTimeAt s.tasks i ≠ -1) :
    startTimeAt s1.tasks i = startTimeAt s.tasks i := by
  cases op with
  | runStep now =>
    unfold applyPOp at happ
    cases hcur : s.current with
    | some c => rw [hcur] at happ; cases happ
    | none =>
      rw [hcur] at happ
      cases happ
      unfold run_tasksStep
      cases hfetch : fetch_task s.tasks with
      | none => rfl
      | some j =>
        dsimp only
        by_cases hij : i = j
        · subst hij
          unfold startTimeAt
          rw [listGet?_listModify_self]
          unfold startTimeAt at hne
          cases hg : listGet? s.tasks i with
          | none => rfl
          | some t =>
            rw [hg] at hne
            simp only [Option.map_some]
            show (if t.start_time = -1 then (now : Int) else t.start_time) =
              t.start_time
            rw [if_neg hne]
        · unfold startTimeAt
          rw [listGet?_listModify_other _ _ _ _ hij]
  | suspendCurrent =>
    unfold applyPOp suspend_current at happ
    cases hcur : s.current with
    | none => rw [hcur] at happ; cases happ
    | some c =>
      rw [hcur] at happ
      cases happ
      exact startTimeAt_modify _ _ _ _ (fun t => rfl)
  | exitCurrent =>
    unfold applyPOp exit_current at happ
    cases hcur : s.current with
    | none => rw [hcur] at happ; cases happ
    | some c =>
      rw [hcur] at happ
      cases happ
      exact startTimeAt_modify _ _ _ _ (fun t => rfl)
  | setPriority v =>
    unfold applyPOp sys_set_priority at happ
    dsimp only at happ
    by_cases hv : v < 2
    · rw [if_pos hv] at happ
      cases happ
      rfl
    · rw [if_neg hv] at happ
      unfold curr_set_priority at happ
      cases hcur : s.current with
      | none => rw [hcur] at happ; cases happ
      | some c =>
        rw [hcur] at happ
        cases happ
        exact startTimeAt_modify _ _ _ _ (fun t => rfl)

/-- Claim C7: `start_time` is written exactly once, at the task's first
grant, when the `-1` sentinel is observed: both `run_next_task` (mod.rs) and
the `run_tasks` grant (processor.rs) set it on sentinel and leave it
unchanged on every later Ready-to-Running transition (and no event of the
processor machine ever changes a set `start_time`); `run_first_task`
treats an already-set `start_time` for task 0 as fatal
(`panic!("task0 is running")`). -/
theorem c7_start_time_once :
    (∀ num_app now inner inner1 i, run_next_task num_app now inner = Except.ok inner1 →
      startTimeAt inner.tasks i ≠ -1 →
      startTimeAt inner1.tasks i = startTimeAt inner.tasks i) ∧
    (∀ num_app now inner inner1 i, run_next_task num_app now inner = Except.ok inner1 →
      find_next_task num_app inner = some i → startTimeAt inner.tasks i = -1 →
      i < inner.tasks.length → startTimeAt inner1.tasks i = (now : Int)) ∧
    (∀ BS now s i, startTimeAt s.tasks i ≠ -1 →
      startTimeAt (run_tasksStep BS now s).2.tasks i = startTimeAt s.tasks i) ∧
    (∀ BS now s i, fetch_task s.tasks = some i → startTimeAt s.tasks i = -1 →
      startTimeAt (run_tasksStep BS now s).2.tasks i = (now : Int)) ∧
    (∀ now inner t0, listGet? inner.tasks 0 = some t0 → t0.start_time ≠ -1 →
      run_first_task now inner = Except.error "task0 is running") ∧
    (∀ BS ops s s1 i, applyPOps BS ops s = some s1 →
      startTimeAt s.tasks i ≠ -1 →
      startTimeAt s1.tasks i = startTimeAt s.tasks i) := by
  refine ⟨?_, ?_, ?_, ?_, ?_, ?_⟩
  · intro num_app now inner inner1 i hrun hne
    unfold run_next_task at hrun
    cases hfind : find_next_task num_app inner with
    | none => rw [hfind] at hrun; cases hrun
    | some next =>
      rw [hfind] at hrun
      cases hrun
      by_cases hin : i = next
      · subst hin
        unfold startTimeAt at hne ⊢
        rw [listGet?_listModify_self]
        cases hg : listGet? inner.tasks i with
        | none => rfl
        | some t =>
          rw [hg] at hne
          simp only [Option.map_some]
          show (if t.start_time = -1 then (now : Int) else t.start_time) =
            t.start_time
          rw [if_neg hne]
      · unfold startTimeAt
        rw [listGet?_listModify_other _ _ _ _ hin]
  · intro num_app now inner inner1 i hrun hfind hsent hlen
    unfold run_next_task at hrun
    rw [hfind] at hrun
    cases hrun
    obtain ⟨t, ht⟩ := listGet?_isSome inner.tasks i hlen
    unfold startTimeAt at hsent ⊢
    rw [listGet?_listModify_self, ht]
    rw [ht] at hsent
    show (if t.start_time = -1 then (now : Int) else t.start_time) = (now : Int)
    rw [if_pos hsent]
  · intro BS now s i hne
    unfold run_tasksStep
    cases hfetch : fetch_task s.tasks with
    | none => rfl
    | some j =>
      dsimp only
      by_cases hij : i = j
      · subst hij
        unfold startTimeAt at hne ⊢
        rw [listGet?_listModify_self]
        cases hg : listGet? s.tasks i with
        | none => rfl
        | some t =>
          rw [hg] at hne
          simp only [Option.map_some]
          show (if t.start_time = -1 then (now : Int) else t.start_time) =
            t.start_time
          rw [if_neg hne]
      · unfold startTimeAt
        rw [listGet?_listModify_other _ _ _ _ hij]
  · intro BS now s i hfetch hsent
    obtain ⟨hlt, _⟩ := fetch_task_some_ready s.tasks i hfetch
    obtain ⟨t, ht⟩ := listGet?_isSome s.tasks i hlt
    unfold run_tasksStep
    rw [hfetch]
    unfold startTimeAt at hsent ⊢
    rw [listGet?_listModify_self, ht]
    rw [ht] at hsent
    show (if t.start_time = -1 then (now : Int) else t.start_time) = (now : Int)
    rw [if_pos hsent]
  · intro now inner t0 ht0 hne
    unfold run_first_task
    rw [ht0]
    dsimp only
    rw [if_neg hne]
  · intro BS ops s s1 i happ hne
    induction ops generalizing s with
    | nil =>
      unfold applyPOps at happ
      cases happ
      rfl
    | cons op rest ih =>
      unfold applyPOps at happ
      cases hstep : applyPOp BS op s with
      | none => rw [hstep] at happ; cases happ
      | some s2 =>
        rw [hstep] at happ
        have h1 := startTime_applyPOp_preserved BS op s s2 i hstep hne
        have h2 := ih s2 happ (by rw [h1]; exact hne)
        rw [h2, h1]

/-- Witness for C7 at concrete inputs: a second grant leaves a set
`start_time` (3) unchanged, a first grant writes it, and `run_first_task` on
an already-started task 0 panics. -/
theorem c7_start_time_once_witness :
    startTimeAt (run_tasksStep 100 9
      { tasks := [tcbReadySample], current := none }).2.tasks 0 = (9 : Int) ∧
    run_first_task 9 { tasks := [tcbRunningSample], current_task := 0 } =
      Except.error "task0 is running" := by
  constructor
  · exact c7_start_time_once.2.2.2.1 100 9
      { tasks := [tcbReadySample], current := none } 0 (by rfl) (by rfl)
  · exact c7_start_time_once.2.2.2.2.1 9
      { tasks := [tcbRunningSample], current_task := 0 } tcbRunningSample rfl
      (by norm_num [tcbRunningSample])

theorem nat_contains_iff_mem (l : List Nat) (x : Nat) :
    l.contains x = true ↔ x ∈ l := by
  induction l with
  | nil => simp
  | cons a t ih =>
    simp [List.contains_cons, ih, beq_iff_eq, List.mem_cons]

theorem and_seven_eq_mod (p : Nat) : p &&& 7 = p % 8 := by
  have h7 : (7 : Nat) = 2 ^ 3 - 1 := by norm_num
  have h8 : (8 : Nat) = 2 ^ 3 := by norm_num
  rw [h7, h8, Nat.and_pow_two_sub_one_eq_mod]

/-- The high mask test of `curr_mmap` (`port & !0x7 != 0`) holds exactly when
`port` has a bit set outside the low three bits (for a `usize` value). -/
theorem high_mask_iff (p : Nat) (hp : p < USIZE_MOD) :
    ((p &&& (USIZE_MOD - 8)) ≠ 0) ↔ ∃ k, 3 ≤ k ∧ p.testBit k = true := by
  constructor
  · intro hne
    obtain ⟨k, hk⟩ := Nat.ne_zero_implies_bit_true hne
    rw [Nat.testBit_and] at hk
    rw [Bool.and_eq_true] at hk
    refine ⟨k, ?_, hk.1⟩
    by_contra h3
    push_neg at h3
    have hmlow : ∀ j, j < 3 → (USIZE_MOD - 8).testBit j = false := by decide
    rw [hmlow k h3] at hk
    exact absurd hk.2 (by simp)
  · rintro ⟨k, hk3, hbit⟩
    have hk64 : k < 64 := by
      by_contra h64
      push_neg at h64
      have hlt : p < 2 ^ k := by
        calc p < USIZE_MOD := hp
        _ = 2 ^ 64 := rfl
        _ ≤ 2 ^ k := Nat.pow_le_pow_right (by norm_num) h64
      rw [Nat.testBit_lt_two_pow hlt] at hbit
      cases hbit
    have hmhigh : ∀ j, j < 64 → 3 ≤ j → (USIZE_MOD - 8).testBit j = true := by
      decide
    intro h0
    have hband : (p &&& (USIZE_MOD - 8)).testBit k = true := by
      rw [Nat.testBit_and, hbit, hmhigh k hk64 hk3]
      rfl
    rw [h0] at hband
    rw [Nat.zero_testBit] at hband
    cases hband

theorem floor_le_ceil (start len : Nat) :
    VirtAddr.floor start ≤ VirtAddr.ceil (start + len) := by
  unfold VirtAddr.floor VirtAddr.ceil PAGE_SIZE
  apply Nat.div_le_div_right
  omega

/-- `curr_vpnrange_exist_map` holds exactly when some page of the range is
already mapped in the current task's address space. -/
theorem exist_map_iff (inner : TaskManagerInner) (t : TaskControlBlock)
    (sv ev : Nat) (ht : listGet? inner.tasks inner.current_task = some t)
    (hse : sv ≤ ev) :
    TaskManager.curr_vpnrange_exist_map inner sv ev = true ↔
      ∃ vpn, sv ≤ vpn ∧ vpn < ev ∧ t.memory_set.vpn_ismap vpn = true := by
  unfold TaskManager.curr_vpnrange_exist_map
  rw [ht]
  rw [List.any_eq_true]
  constructor
  · rintro ⟨x, hx, hmap⟩
    rw [mem_countFrom] at hx
    exact ⟨x, hx.1, by omega, hmap⟩
  · rintro ⟨vpn, h1, h2, hmap⟩
    exact ⟨vpn, by rw [mem_countFrom]; omega, hmap⟩

/-- Membership in an inserted area. -/
theorem ismap_insert_iff (ms : MemorySet) (sv ev vpn : Nat) (hse : sv ≤ ev) :
    ((ms.insert_framed_area sv ev).vpn_ismap vpn = true) ↔
      (ms.vpn_ismap vpn = true ∨ (sv ≤ vpn ∧ vpn < ev)) := by
  unfold MemorySet.insert_framed_area MemorySet.vpn_ismap
  rw [nat_contains_iff_mem, List.mem_append, mem_countFrom,
    ← nat_contains_iff_mem]
  constructor
  · rintro (h | h)
    · exact Or.inl h
    · exact Or.inr ⟨h.1, by omega⟩
  · rintro (h | h)
    · exact Or.inl h
    · exact Or.inr ⟨h.1, by omega⟩

/-- Claim C5: `mmap(start, len, port)` fails with `-1` and leaves the current
task's address space unchanged exactly when `start` is not page-aligned, or
`port` has bits outside the low three, or the low three permission bits are
all zero, or some page of the requested range is already mapped; otherwise it
returns 0 and inserts the new mapping region (exactly the pages of the
range are added, and no other task is touched). -/
theorem c5_mmap_validation (inner : TaskManagerInner) (t : TaskControlBlock)
    (start len port : Nat)
    (hcur : listGet? inner.tasks inner.current_task = some t)
    (hport : port < USIZE_MOD) :
    ((curr_mmap inner start len port).1 = -1 ↔
      (¬ (start % PAGE_SIZE = 0) ∨
        (∃ k, 3 ≤ k ∧ port.testBit k = true) ∨
        port % 8 = 0 ∨
        (∃ vpn, VirtAddr.floor start ≤ vpn ∧ vpn < VirtAddr.ceil (start + len) ∧
          t.memory_set.vpn_ismap vpn = true))) ∧
    ((curr_mmap inner start len port).1 = -1 →
      (curr_mmap inner start len port).2 = inner) ∧
    ((curr_mmap inner start len port).1 ≠ -1 →
      (curr_mmap inner start len port).1 = 0 ∧
      (∃ t1, listGet? (curr_mmap inner start len port).2.tasks
          inner.current_task = some t1 ∧
        ∀ vpn, (t1.memory_set.vpn_ismap vpn = true ↔
          (t.memory_set.vpn_ismap vpn = true ∨
            (VirtAddr.floor start ≤ vpn ∧ vpn < VirtAddr.ceil (start + len))))) ∧
      (∀ j, j ≠ inner.current_task →
        listGet? (curr_mmap inner start len port).2.tasks j =
          listGet? inner.tasks j)) := by
  have hse := floor_le_ceil start len
  have h1 : ((!(VirtAddr.aligned start)) = true) ↔ ¬(start % PAGE_SIZE = 0) := by
    unfold VirtAddr.aligned
    rw [Bool.not_eq_true', beq_eq_false_iff_ne]
  have h2 : (((port &&& (USIZE_MOD - 8)) != 0) = true) ↔
      (∃ k, 3 ≤ k ∧ port.testBit k = true) := by
    rw [bne_iff_ne]
    exact high_mask_iff port hport
  have h3 : (((port &&& 7) == 0) = true) ↔ port % 8 = 0 := by
    rw [beq_iff_eq, and_seven_eq_mod]
  have h4 := exist_map_iff inner t (VirtAddr.floor start)
    (VirtAddr.ceil (start + len)) hcur hse
  have hcond : ((!(VirtAddr.aligned start)
      || (port &&& (USIZE_MOD - 8)) != 0
      || (port &&& 7) == 0
      || TaskManager.curr_vpnrange_exist_map inner (VirtAddr.floor start)
           (VirtAddr.ceil (start + len))) = true) ↔
      (¬ (start % PAGE_SIZE = 0) ∨
        (∃ k, 3 ≤ k ∧ port.testBit k = true) ∨
        port % 8 = 0 ∨
        (∃ vpn, VirtAddr.floor start ≤ vpn ∧ vpn < VirtAddr.ceil (start + len) ∧
          t.memory_set.vpn_ismap vpn = true)) := by
    simp only [Bool.or_eq_true]
    rw [h1, h2, h3, h4, or_assoc, or_assoc]
  refine ⟨?_, ?_, ?_⟩
  · constructor
    · intro hm1
      by_cases hb : (!(VirtAddr.aligned start)
          || (port &&& (USIZE_MOD - 8)) != 0
          || (port &&& 7) == 0
          || TaskManager.curr_vpnrange_exist_map inner (VirtAddr.floor start)
               (VirtAddr.ceil (start + len))) = true
      · exact hcond.mp hb
      · exfalso
        unfold curr_mmap at hm1
        rw [if_neg hb] at hm1
        norm_num at hm1
    · intro hclaim
      have hb := hcond.mpr hclaim
      unfold curr_mmap
      rw [if_pos hb]
  · intro hm1
    by_cases hb : (!(VirtAddr.aligned start)
        || (port &&& (USIZE_MOD - 8)) != 0
        || (port &&& 7) == 0
        || TaskManager.curr_vpnrange_exist_map inner (VirtAddr.floor start)
             (VirtAddr.ceil (start + len))) = true
    · unfold curr_mmap
      rw [if_pos hb]
    · exfalso
      unfold curr_mmap at hm1
      rw [if_neg hb] at hm1
      norm_num at hm1
  · intro hne0
    have hb : ¬ ((!(VirtAddr.aligned start)
        || (port &&& (USIZE_MOD - 8)) != 0
        || (port &&& 7) == 0
        || TaskManager.curr_vpnrange_exist_map inner (VirtAddr.floor start)
             (VirtAddr.ceil (start + len))) = true) := by
      intro hb
      apply hne0
      unfold curr_mmap
      rw [if_pos hb]
    have hres : curr_mmap inner start len port =
        (0, TaskManager.curr_mmap inner start (start + len)) := by
      unfold curr_mmap
      rw [if_neg hb]
    rw [hres]
    refine ⟨rfl, ?_, ?_⟩
    · refine ⟨{ t with
          memory_set := t.memory_set.insert_framed_area (VirtAddr.floor start)
              (VirtAddr.ceil (start + len)) }, ?_, ?_⟩
      · unfold TaskManager.curr_mmap
        dsimp only
        rw [listGet?_listModify_self, hcur]
        rfl
      · intro vpn
        exact ismap_insert_iff t.memory_set _ _ vpn hse
    · intro j hj
      unfold TaskManager.curr_mmap
      dsimp only
      rw [listGet?_listModify_other _ _ _ _ hj]

/-- Witness for C5 at a concrete one-task state: `mmap(4096, 8, 0)` (empty
permission bits) fails leaving the state unchanged, and `mmap(4096, 8, 7)`
succeeds. -/
theorem c5_mmap_validation_witness :
    (curr_mmap { tasks := [tcbReadySample], current_task := 0 } 4096 8 0).2 =
      { tasks := [tcbReadySample], current_task := 0 } ∧
    (curr_mmap { tasks := [tcbReadySample], current_task := 0 } 4096 8 7).1 = 0 :=
  ⟨(c5_mmap_validation { tasks := [tcbReadySample], current_task := 0 }
      tcbReadySample 4096 8 0 rfl (by norm_num [USIZE_MOD])).2.1 (by decide),
   ((c5_mmap_validation { tasks := [tcbReadySample], current_task := 0 }
      tcbReadySample 4096 8 7 rfl (by norm_num [USIZE_MOD])).2.2 (by decide)).1⟩

/-- Effect of one non-`set_priority` event on task `i`'s stride and priority:
the priority never changes; the stride gains `BIG_STRIDE / prior` (wrapping)
exactly when the event grants a quantum to `i`, and is untouched otherwise. -/
theorem step_stride_effect (BS : Nat) (op : POp) (s s2 : PSystem) (i : Nat)
    (hop : ∀ v, op ≠ POp.setPriority v)
    (hstep : applyPOp BS op s = some s2) :
    priorAt s2.tasks i = priorAt s.tasks i ∧
    (isGrantTo op s.tasks i = true →
      strideAt s2.tasks i =
        (strideAt s.tasks i + BS / priorAt s.tasks i) % USIZE_MOD) ∧
    (isGrantTo op s.tasks i = false → strideAt s2.tasks i = strideAt s.tasks i) := by
  cases op with
  | runStep now =>
    unfold applyPOp at hstep
    cases hcur : s.current with
    | some c => rw [hcur] at hstep; cases hstep
    | none =>
      rw [hcur] at hstep
      cases hstep
      unfold run_tasksStep isGrantTo
      cases hfetch : fetch_task s.tasks with
      | none =>
        refine ⟨rfl, ?_, fun _ => rfl⟩
        intro hg
        simp at hg
      | some j =>
        dsimp only
        by_cases hij : j = i
        · subst hij
          obtain ⟨hlt, _⟩ := fetch_task_some_ready s.tasks j hfetch
          obtain ⟨t, ht⟩ := listGet?_isSome s.tasks j hlt
          refine ⟨priorAt_modify _ _ _ _ (fun t0 => rfl), ?_, ?_⟩
          · intro _
            unfold strideAt priorAt
            rw [listGet?_listModify_self, ht]
            rfl
          · intro hg
            simp at hg
        · refine ⟨priorAt_modify _ _ _ _ (fun t0 => rfl), ?_, ?_⟩
          · intro hg
            rw [beq_iff_eq] at hg
            cases hg
            exact absurd rfl hij
          · intro _
            unfold strideAt
            rw [listGet?_listModify_other _ _ _ _ (fun hc => hij hc.symm)]
  | suspendCurrent =>
    unfold applyPOp suspend_current at hstep
    cases hcur : s.current with
    | none => rw [hcur] at hstep; cases hstep
    | some c =>
      rw [hcur] at hstep
      cases hstep
      refine ⟨priorAt_modify _ _ _ _ (fun t0 => rfl), ?_, ?_⟩
      · intro hg
        simp [isGrantTo] at hg
      · intro _
        exact strideAt_modify _ _ _ _ (fun t0 => rfl)
  | exitCurrent =>
    unfold applyPOp exit_current at hstep
    cases hcur : s.current with
    | none => rw [hcur] at hstep; cases hstep
    | some c =>
      rw [hcur] at hstep
      cases hstep
      refine ⟨priorAt_modify _ _ _ _ (fun t0 => rfl), ?_, ?_⟩
      · intro hg
        simp [isGrantTo] at hg
      · intro _
        exact strideAt_modify _ _ _ _ (fun t0 => rfl)
  | setPriority v => exact absurd rfl (hop v)

/-- Claim C3: along any trace of scheduler events containing no
`set_priority` call, a task `i` with priority `p` has its stride incremented
by exactly `BIG_STRIDE / p` (truncating division) once per quantum granted to
it — independent of the other events — so after `k` grants its stride has
grown by exactly `k * (BIG_STRIDE / p)` and (absent 64-bit wraparound, the
spec's unmodeled edge case) is monotonically non-decreasing. -/
theorem c3_stride_accumulation (BS p i : Nat) (ops : List POp) (s s1 : PSystem)
    (hops : ∀ op ∈ ops, ∀ v, op ≠ POp.setPriority v)
    (happ : applyPOps BS ops s = some s1)
    (hp : priorAt s.tasks i = p)
    (hbound : strideAt s.tasks i + grantsTo BS i ops s * (BS / p) < USIZE_MOD) :
    strideAt s1.tasks i = strideAt s.tasks i + grantsTo BS i ops s * (BS / p) ∧
    strideAt s.tasks i ≤ strideAt s1.tasks i := by
  have main : strideAt s1.tasks i =
      strideAt s.tasks i + grantsTo BS i ops s * (BS / p) := by
    induction ops generalizing s with
    | nil =>
      unfold applyPOps at happ
      cases happ
      unfold grantsTo
      simp
    | cons op rest ih =>
      have hopr : ∀ op1 ∈ rest, ∀ v, op1 ≠ POp.setPriority v :=
        fun o ho v => hops o (List.mem_cons_of_mem _ ho) v
      have hopc : ∀ v, op ≠ POp.setPriority v :=
        fun v => hops op (List.mem_cons_self _ _) v
      unfold applyPOps at happ
      cases hstep : applyPOp BS op s with
      | none => rw [hstep] at happ; cases happ
      | some s2 =>
        rw [hstep] at happ
        obtain ⟨hprior, hgrant, hnogrant⟩ :=
          step_stride_effect BS op s s2 i hopc hstep
        have hgr : grantsTo BS i (op :: rest) s =
            (if isGrantTo op s.tasks i then 1 else 0) + grantsTo BS i rest s2 := by
          conv_lhs => unfold grantsTo
          rw [hstep]
        by_cases hg : isGrantTo op s.tasks i = true
        · rw [hgr, if_pos hg] at hbound ⊢
          have hdist : (1 + grantsTo BS i rest s2) * (BS / p) =
              BS / p + grantsTo BS i rest s2 * (BS / p) := by ring
          have hlt : strideAt s.tasks i + BS / p < USIZE_MOD := by omega
          have hs2 : strideAt s2.tasks i = strideAt s.tasks i + BS / p := by
            rw [hgrant hg, hp]
            exact Nat.mod_eq_of_lt hlt
          have hbound2 : strideAt s2.tasks i +
              grantsTo BS i rest s2 * (BS / p) < USIZE_MOD := by omega
          have hrec := ih s2 hopr happ (by rw [hprior, hp]) hbound2
          rw [hrec, hs2]
          ring
        · rw [Bool.not_eq_true] at hg
          rw [hgr, if_neg (by simp [hg])] at hbound ⊢
          rw [Nat.zero_add] at hbound ⊢
          have hs2 : strideAt s2.tasks i = strideAt s.tasks i := hnogrant hg
          have hrec := ih s2 hopr happ (by rw [hprior, hp]) (by rw [hs2]; omega)
          rw [hrec, hs2]
  exact ⟨main, by omega⟩

/-- Two `Ready` tasks with priorities 2 and 4, used by the C3 witness. -/
def psC3Init : PSystem :=
  { tasks := [{ task_status := TaskStatus.Ready, start_time := -1, stride := 0,
                prior := 2, syscall_times := [0, 0], memory_set := { mapped := [] } },
              { task_status := TaskStatus.Ready, start_time := -1, stride := 0,
                prior := 4, syscall_times := [0, 0], memory_set := { mapped := [] } }],
    current := none }

/-- Two scheduling rounds, each a grant followed by a suspend. -/
def opsC3 : List POp :=
  [POp.runStep 1, POp.suspendCurrent, POp.runStep 2, POp.suspendCurrent]

/-- The state after running [opsC3] from [psC3Init] with `BIG_STRIDE = 8`. -/
def psC3Final : PSystem := (applyPOps 8 opsC3 psC3Init).getD psC3Init

/-- Witness for C3: with `BIG_STRIDE = 8`, over the concrete two-round trace
task 0 (priority 2) is granted once, and its stride grows by exactly
`1 * (8 / 2)`. -/
theorem c3_stride_accumulation_witness :
    strideAt psC3Final.tasks 0 =
      strideAt psC3Init.tasks 0 + grantsTo 8 0 opsC3 psC3Init * (8 / 2) ∧
    strideAt psC3Init.tasks 0 ≤ strideAt psC3Final.tasks 0 :=
  c3_stride_accumulation 8 2 0 opsC3 psC3Init psC3Final
    (by intro op hop v; fin_cases hop <;> simp)
    (by decide) rfl (by decide)

/-- The Running-uniqueness invariant: exactly one `Running` TCB (the current
one) while the Processor holds a current task, zero while it holds none. -/
def runningUniqueInv (s : PSystem) : Prop :=
  (∀ i, s.current = some i → runningCount s.tasks = 1 ∧
    statusAt s.tasks i = TaskStatus.Running) ∧
  (s.current = none → runningCount s.tasks = 0)

theorem statusAt_eq_some (tasks : List TaskControlBlock) (i : Nat)
    (st : TaskStatus) (hst : statusAt tasks i = st) (hne : st ≠ TaskStatus.UnInit) :
    ∃ t, listGet? tasks i = some t ∧ t.task_status = st := by
  unfold statusAt at hst
  cases hg : listGet? tasks i with
  | none =>
    rw [hg] at hst
    exact absurd hst.symm hne
  | some t =>
    rw [hg] at hst
    exact ⟨t, rfl, hst⟩

theorem runningCount_modify (tasks : List TaskControlBlock) (j : Nat)
    (f : TaskControlBlock → TaskControlBlock) (t : TaskControlBlock)
    (ht : listGet? tasks j = some t) (b1 b2 : Bool)
    (h1 : isRunningTCB t = b1) (h2 : isRunningTCB (f t) = b2) :
    runningCount (listModify tasks j f) + (if b1 then 1 else 0) =
      runningCount tasks + (if b2 then 1 else 0) := by
  have h := countB_listModify isRunningTCB tasks j f t ht
  rw [h1, h2] at h
  exact h

/-- Every event of the processor machine preserves Running-uniqueness. -/
theorem runningInv_applyPOp (BS : Nat) (op : POp) (s s2 : PSystem)
    (hstep : applyPOp BS op s = some s2) (hinv : runningUniqueInv s) :
    runningUniqueInv s2 := by
  obtain ⟨hsome, hnone⟩ := hinv
  cases op with
  | runStep now =>
    unfold applyPOp at hstep
    cases hcur : s.current with
    | some c => rw [hcur] at hstep; cases hstep
    | none =>
      rw [hcur] at hstep
      cases hstep
      have hzero : runningCount s.tasks = 0 := hnone hcur
      unfold run_tasksStep
      cases hfetch : fetch_task s.tasks with
      | none => exact ⟨hsome, hnone⟩
      | some j =>
        dsimp only
        obtain ⟨hlt, hready⟩ := fetch_task_some_ready s.tasks j hfetch
        obtain ⟨t, ht, htst⟩ := statusAt_eq_some s.tasks j TaskStatus.Ready
          hready (by decide)
        have hb1 : isRunningTCB t = false := by
          unfold isRunningTCB
          rw [htst]
          decide
        have hcnt := runningCount_modify s.tasks j
          (fun t0 =>
            { t0 with
              task_status := TaskStatus.Running,
              start_time := if t0.start_time = -1 then (now : Int) else t0.start_time,
              stride := (t0.stride + BS / t0.prior) % USIZE_MOD })
          t ht false true hb1 rfl
        simp at hcnt
        constructor
        · intro i hi
          cases hi
          refine ⟨by dsimp only; omega, ?_⟩
          unfold statusAt
          rw [listGet?_listModify_self, ht]
          rfl
        · intro hn
          cases hn
  | suspendCurrent =>
    unfold applyPOp suspend_current at hstep
    cases hcur : s.current with
    | none => rw [hcur] at hstep; cases hstep
    | some c =>
      rw [hcur] at hstep
      cases hstep
      obtain ⟨hone, hrun⟩ := hsome c hcur
      obtain ⟨t, ht, htst⟩ := statusAt_eq_some s.tasks c TaskStatus.Running
        hrun (by decide)
      have hb1 : isRunningTCB t = true := by
        unfold isRunningTCB
        rw [htst]
        decide
      have hcnt := runningCount_modify s.tasks c
        (fun t0 => { t0 with task_status := TaskStatus.Ready }) t ht true false
        hb1 rfl
      simp at hcnt
      constructor
      · intro i hi
        cases hi
      · intro _
        dsimp only
        omega
  | exitCurrent =>
    unfold applyPOp exit_current at hstep
    cases hcur : s.current with
    | none => rw [hcur] at hstep; cases hstep
    | some c =>
      rw [hcur] at hstep
      cases hstep
      obtain ⟨hone, hrun⟩ := hsome c hcur
      obtain ⟨t, ht, htst⟩ := statusAt_eq_some s.tasks c TaskStatus.Running
        hrun (by decide)
      have hb1 : isRunningTCB t = true := by
        unfold isRunningTCB
        rw [htst]
        decide
      have hcnt := runningCount_modify s.tasks c
        (fun t0 => { t0 with task_status := TaskStatus.Exited }) t ht true false
        hb1 rfl
      simp at hcnt
      constructor
      · intro i hi
        cases hi
      · intro _
        dsimp only
        omega
  | setPriority v =>
    unfold applyPOp sys_set_priority at hstep
    dsimp only at hstep
    by_cases hv : v < 2
    · rw [if_pos hv] at hstep
      cases hstep
      exact ⟨hsome, hnone⟩
    · rw [if_neg hv] at hstep
      unfold curr_set_priority at hstep
      cases hcur : s.current with
      | none => rw [hcur] at hstep; cases hstep
      | some c =>
        rw [hcur] at hstep
        cases hstep
        obtain ⟨hone, hrun⟩ := hsome c hcur
        obtain ⟨t, ht, htst⟩ := statusAt_eq_some s.tasks c TaskStatus.Running
          hrun (by decide)
        have hcnt := runningCount_modify s.tasks c
          (fun t0 => { t0 with prior := intToUsize v }) t ht
          (isRunningTCB t) (isRunningTCB t) rfl rfl
        constructor
        · intro i hi
          cases hi
          refine ⟨by dsimp only; omega, ?_⟩
          unfold statusAt
          rw [listGet?_listModify_self, ht]
          dsimp only [Option.map]
          exact htst
        · intro hn
          cases hn

theorem runningInv_applyPOps (BS : Nat) (ops : List POp) (s s1 : PSystem)
    (happ : applyPOps BS ops s = some s1) (hinv : runningUniqueInv s) :
    runningUniqueInv s1 := by
  induction ops generalizing s with
  | nil =>
    unfold applyPOps at happ
    cases happ
    exact hinv
  | cons op rest ih =>
    unfold applyPOps at happ
    cases hstep : applyPOp BS op s with
    | none => rw [hstep] at happ; cases happ
    | some s2 =>
      rw [hstep] at happ
      exact ih s2 happ (runningInv_applyPOp BS op s s2 hstep hinv)

/-- Claim C4: starting from the initial task table (every task `Ready`, the
Processor holding no current task), after any sequence of grant / suspend /
exit / set-priority events at most one TCB is `Running`: exactly one — the
current one — while the Processor holds a current task, and zero while the
idle context has control (the current cell is empty). Every sampled instant
is covered because the theorem applies to every event-sequence prefix. -/
theorem c4_at_most_one_running (BS : Nat) (ops : List POp) (s s1 : PSystem)
    (hready : ∀ t ∈ s.tasks, t.task_status = TaskStatus.Ready)
    (hcur : s.current = none)
    (happ : applyPOps BS ops s = some s1) :
    runningCount s1.tasks ≤ 1 ∧
    (∀ i, s1.current = some i → runningCount s1.tasks = 1 ∧
      statusAt s1.tasks i = TaskStatus.Running) ∧
    (s1.current = none → runningCount s1.tasks = 0) := by
  have hinv0 : runningUniqueInv s := by
    constructor
    · intro i hi
      rw [hcur] at hi
      cases hi
    · intro _
      unfold runningCount
      rw [countB_eq_zero]
      intro i a hget
      have hmem := listGet?_mem _ _ _ hget
      unfold isRunningTCB
      rw [hready a hmem]
      decide
  have hinv1 := runningInv_applyPOps BS ops s s1 happ hinv0
  obtain ⟨hsome, hnone⟩ := hinv1
  refine ⟨?_, hsome, hnone⟩
  cases hc1 : s1.current with
  | none =>
    rw [hnone hc1]
    omega
  | some i =>
    rw [(hsome i hc1).1]

/-- The state after a grant, a suspend, a second grant and an exit. -/
def psC4Final : PSystem :=
  (applyPOps 8 [POp.runStep 1, POp.suspendCurrent, POp.runStep 2,
    POp.exitCurrent] psC3Init).getD psC3Init

/-- Witness for C4 on a concrete two-task trace ending with an exit. -/
theorem c4_at_most_one_running_witness :
    runningCount psC4Final.tasks ≤ 1 ∧
    (∀ i, psC4Final.current = some i → runningCount psC4Final.tasks = 1 ∧
      statusAt psC4Final.tasks i = TaskStatus.Running) ∧
    (psC4Final.current = none → runningCount psC4Final.tasks = 0) :=
  c4_at_most_one_running 8
    [POp.runStep 1, POp.suspendCurrent, POp.runStep 2, POp.exitCurrent]
    psC3Init psC4Final (by decide) rfl (by decide)
